import Mathlib

/-!
Verification development for the log-classification and ingestion core of
`circus-mcp` (`src/circus_mcp_manager/src/log_parser/*.py`,
`src/infrastructure/repositories.py`, `src/utils/helpers.py`).

The Python regex engine (`re`) is treated as an abstract deterministic
engine: a `compile : String → Nat → Option C` function (flags are the
integer flag word) and an `rmatch : C → String → Bool` search function.
All definitions are shallow embeddings of the corresponding Python code;
Python dicts (which preserve insertion order) are modelled as association
lists, `collections.deque(maxlen=n)` as a list with FIFO eviction, and
Python exceptions as explicit `Option`/error results paired with the
object state (an exception leaves the object in the state it had when the
exception was raised).
-/

namespace Circus

/-! ### Python string primitives (ASCII model of `str.strip`, `str.lower`) -/

/-- ASCII whitespace, as recognised by `str.strip()` (model). -/
def isSp (c : Char) : Bool :=
  c = ' ' || c = '\t' || c = '\n' || c = '\r' || c = '\x0b' || c = '\x0c'

def pyStripList (l : List Char) : List Char :=
  ((l.dropWhile isSp).reverse.dropWhile isSp).reverse

/-- Model of Python `str.strip()`. -/
def pyStrip (s : String) : String := ⟨pyStripList s.data⟩

/-- Model of Python `str.lower()` (ASCII letters). -/
def lowerChar (c : Char) : Char :=
  if 'A' ≤ c ∧ c ≤ 'Z' then Char.ofNat (c.toNat + 32) else c

def pyLower (s : String) : String := ⟨s.data.map lowerChar⟩

/-! ### Association lists: insertion-ordered model of Python `dict` -/

def alGet {β : Type} (d : List (String × β)) (k : String) : Option β :=
  match d with
  | [] => none
  | (k', v) :: rest => if k' = k then some v else alGet rest k

/-- `d[k] = v`: replaces in place if the key exists, else appends (Python
dict insertion-order semantics). -/
def alSet {β : Type} (d : List (String × β)) (k : String) (v : β) :
    List (String × β) :=
  match d with
  | [] => [(k, v)]
  | (k', v') :: rest =>
    if k' = k then (k', v) :: rest else (k', v') :: alSet rest k v

def concatMap {α β : Type} (f : α → List β) : List α → List β
  | [] => []
  | x :: xs => f x ++ concatMap f xs

theorem alGet_alSet_self {β : Type} (d : List (String × β)) (k : String)
    (v : β) : alGet (alSet d k v) k = some v := by
  induction d with
  | nil => simp [alGet, alSet]
  | cons hd tl ih =>
    obtain ⟨k', v'⟩ := hd
    by_cases h : k' = k <;> simp [alGet, alSet, h, ih]

theorem alGet_alSet_ne {β : Type} (d : List (String × β)) (k k' : String)
    (v : β) (h : k' ≠ k) : alGet (alSet d k v) k' = alGet d k' := by
  induction d with
  | nil => simp [alGet, alSet, Ne.symm h]
  | cons hd tl ih =>
    obtain ⟨k₀, v₀⟩ := hd
    by_cases h₀ : k₀ = k
    · subst h₀
      simp [alGet, alSet, Ne.symm h]
    · by_cases h₁ : k₀ = k' <;> simp [alGet, alSet, h₀, h₁, h, ih]

theorem mem_concatMap_snd_alSet {γ : Type} (d : List (String × List γ))
    (k : String) (v : List γ) (p : γ)
    (h : p ∈ concatMap (fun x => x.2) (alSet d k v)) :
    p ∈ v ∨ p ∈ concatMap (fun x => x.2) d := by
  induction d with
  | nil => simpa [alSet, concatMap] using h
  | cons hd tl ih =>
    obtain ⟨k₀, v₀⟩ := hd
    by_cases h₀ : k₀ = k
    · simp only [alSet, h₀, if_pos rfl, concatMap, List.mem_append] at h ⊢
      tauto
    · simp only [alSet, h₀, if_neg h₀, concatMap, List.mem_append] at h ⊢
      rcases h with h | h
      · tauto
      · rcases ih h with h | h <;> tauto

theorem mem_of_alGet {β : Type} (d : List (String × List β)) (k : String)
    (v : List β) (p : β) (hget : alGet d k = some v) (hp : p ∈ v) :
    p ∈ concatMap (fun x => x.2) d := by
  induction d with
  | nil => simp [alGet] at hget
  | cons hd tl ih =>
    obtain ⟨k₀, v₀⟩ := hd
    by_cases h₀ : k₀ = k
    · subst h₀
      simp [alGet] at hget
      subst hget
      simp [concatMap, hp]
    · simp only [alGet, if_neg h₀] at hget
      simp [concatMap, ih hget]

/-! ### Stable ascending sort by an integer key.

`list.sort(key=...)` in Python is a stable ascending sort; any stable
ascending sort computes the same list, so we embed it as an insertion
sort that inserts each later element after all earlier elements with an
equal key. -/

def insertSorted {α : Type} (key : α → Int) (x : α) : List α → List α
  | [] => [x]
  | y :: ys =>
    if key x < key y then x :: y :: ys else y :: insertSorted key x ys

def sortByKey {α : Type} (key : α → Int) (l : List α) : List α :=
  l.foldl (fun acc x => insertSorted key x acc) []

/-- Merge of two optional candidates; the left (earlier) one wins ties. -/
def combo {α : Type} (key : α → Int) : Option α → Option α → Option α
  | none, b => b
  | some a, none => some a
  | some a, some b => if key b < key a then some b else some a

/-- The first element of the list attaining the minimal key. -/
def firstMinBy {α : Type} (key : α → Int) : List α → Option α
  | [] => none
  | x :: l => combo key (some x) (firstMinBy key l)

theorem combo_none_right {α : Type} (key : α → Int) (a : Option α) :
    combo key a none = a := by
  cases a <;> rfl

theorem combo_none_left {α : Type} (key : α → Int) (b : Option α) :
    combo key none b = b := rfl

theorem combo_assoc {α : Type} (key : α → Int) (a b c : Option α) :
    combo key (combo key a b) c = combo key a (combo key b c) := by
  cases a with
  | none => rfl
  | some a' =>
    cases b with
    | none => rfl
    | some b' =>
      cases c with
      | none => rw [combo_none_right, combo_none_right]
      | some c' =>
        by_cases h1 : key b' < key a' <;> by_cases h2 : key c' < key b' <;>
          by_cases h3 : key c' < key a' <;>
          simp [combo, h1, h2, h3] <;> first | rfl | (exfalso; omega)

theorem head_insertSorted {α : Type} (key : α → Int) (x : α) (s : List α) :
    (insertSorted key x s).head? = combo key s.head? (some x) := by
  cases s with
  | nil => rfl
  | cons y ys =>
    simp only [insertSorted, combo, List.head?]
    split_ifs <;> rfl

theorem foldl_insertSorted_head {α : Type} (key : α → Int) :
    ∀ (l : List α) (acc : List α),
      (l.foldl (fun a x => insertSorted key x a) acc).head? =
        combo key acc.head? (firstMinBy key l) := by
  intro l
  induction l with
  | nil => intro acc; simp [firstMinBy, combo_none_right]
  | cons x l ih =>
    intro acc
    simp only [List.foldl_cons, firstMinBy]
    rw [ih, head_insertSorted, combo_assoc]

theorem sortByKey_head {α : Type} (key : α → Int) (l : List α) :
    (sortByKey key l).head? = firstMinBy key l := by
  simp [sortByKey, foldl_insertSorted_head, combo_none_left]

theorem firstMinBy_ne_none {α : Type} (key : α → Int) (x : α) (l : List α) :
    firstMinBy key (x :: l) ≠ none := by
  simp only [firstMinBy]
  cases firstMinBy key l with
  | none => simp [combo]
  | some m => simp only [combo]; split_ifs <;> simp

theorem firstMinBy_mem {α : Type} (key : α → Int) :
    ∀ (l : List α) (m : α), firstMinBy key l = some m → m ∈ l := by
  intro l
  induction l with
  | nil => intro m h; simp [firstMinBy] at h
  | cons x l ih =>
    intro m h
    simp only [firstMinBy] at h
    cases hl : firstMinBy key l with
    | none =>
      rw [hl] at h
      simp only [combo, Option.some.injEq] at h
      simp [h]
    | some m' =>
      rw [hl] at h
      simp only [combo] at h
      split_ifs at h <;> simp only [Option.some.injEq] at h
      · subst h; exact List.mem_cons_of_mem x (ih m' hl)
      · simp [h]

theorem firstMinBy_le {α : Type} (key : α → Int) :
    ∀ (l : List α) (m : α), firstMinBy key l = some m →
      ∀ y ∈ l, key m ≤ key y := by
  intro l
  induction l with
  | nil => intro m h; simp [firstMinBy] at h
  | cons x l ih =>
    intro m h y hy
    simp only [firstMinBy] at h
    cases hl : firstMinBy key l with
    | none =>
      rw [hl] at h
      simp only [combo, Option.some.injEq] at h
      subst h
      rcases List.mem_cons.mp hy with h | h
      · rw [h]
      · cases l with
        | nil => simp at h
        | cons a t => exact absurd hl (firstMinBy_ne_none key a t)
    | some m' =>
      rw [hl] at h
      simp only [combo] at h
      have hle' := ih m' hl
      rcases List.mem_cons.mp hy with hy | hy
      · subst hy
        split_ifs at h with hc <;> simp only [Option.some.injEq] at h <;>
          subst h <;> omega
      · have hle := hle' y hy
        split_ifs at h with hc <;> simp only [Option.some.injEq] at h <;>
          subst h <;> omega

theorem mem_insertSorted {α : Type} (key : α → Int) (x a : α) :
    ∀ (s : List α), a ∈ insertSorted key x s ↔ a = x ∨ a ∈ s := by
  intro s
  induction s with
  | nil => simp [insertSorted]
  | cons y ys ih =>
    simp only [insertSorted]
    split_ifs
    · simp [List.mem_cons]
    · simp only [List.mem_cons, ih]
      tauto

theorem mem_sortByKey {α : Type} (key : α → Int) (l : List α) (a : α) :
    a ∈ sortByKey key l ↔ a ∈ l := by
  have main : ∀ (l acc : List α),
      a ∈ l.foldl (fun s x => insertSorted key x s) acc ↔ a ∈ acc ∨ a ∈ l := by
    intro l
    induction l with
    | nil => intro acc; simp
    | cons x t ih =>
      intro acc
      simp only [List.foldl_cons, ih, mem_insertSorted, List.mem_cons]
      tauto
  simpa [sortByKey] using main l []

/-! ### `log_parser/patterns.py` -/

/-- `LogPattern` (patterns.py 17-51): a stored pattern.  Construction in
Python compiles the regex and raises `LogPatternError` on failure, so a
`LogPattern` value only exists for a successfully compiled regex; see
`mkLogPattern`. -/
structure LogPattern (C : Type) where
  regex_str : String
  priority : Int
  flags : Nat
  compiled_regex : C
deriving DecidableEq

/-- `LogPattern.__init__`: compile the regex, failing (raising
`LogPatternError`) when the engine rejects it. -/
def mkLogPattern {C : Type} (compile : String → Nat → Option C)
    (regex : String) (priority : Int) (flags : Nat) :
    Option (LogPattern C) :=
  (compile regex flags).map fun c => ⟨regex, priority, flags, c⟩

/-- `LogPattern.match`: `bool(self.compiled_regex.search(text))`. -/
def LogPattern.matchText {C : Type} (rmatch : C → String → Bool)
    (p : LogPattern C) (text : String) : Bool :=
  rmatch p.compiled_regex text

/-- `PatternManager` state: the two insertion-ordered dicts
`self.patterns` and `self.custom_patterns`. -/
structure PatternManager (C : Type) where
  patterns : List (String × List (LogPattern C))
  custom_patterns : List (String × List (LogPattern C))
deriving DecidableEq

/-- `PatternManager.get_patterns` (patterns.py 172-188): copy of the
standard list, extended with the custom list, sorted stably by
priority. -/
def PatternManager.get_patterns {C : Type} (m : PatternManager C)
    (level : String) : List (LogPattern C) :=
  sortByKey (fun p => p.priority)
    ((alGet m.patterns level).getD [] ++ (alGet m.custom_patterns level).getD [])

/-- The set `set(self.patterns.keys()) | set(self.custom_patterns.keys())`
iterated by `get_all_patterns`, as its underlying list of distinct
elements (first occurrences). -/
def PatternManager.levels {C : Type} (m : PatternManager C) : List String :=
  (m.patterns.map (fun x => x.1) ++ m.custom_patterns.map (fun x => x.1)).dedup

/-- A possible iteration order of the level set: Python set iteration
yields each element exactly once, in an incidental order. -/
def orderOk {C : Type} (m : PatternManager C) (order : List String) : Prop :=
  order.Perm m.levels

instance {C : Type} (m : PatternManager C) (order : List String) :
    Decidable (orderOk m order) :=
  inferInstanceAs (Decidable (order.Perm m.levels))

/-- `PatternManager.get_all_patterns` (patterns.py 190-205), parameterised
by the incidental iteration order of the level set. -/
def PatternManager.get_all_patterns {C : Type} (m : PatternManager C)
    (order : List String) : List (String × List (LogPattern C)) :=
  order.map fun level => (level, m.get_patterns level)

/-- `PatternManager.add_custom_pattern` (patterns.py 207-230).  The
returned `Option String` is the raised `LogPatternError` (if any); the
returned manager is the object state after the call. -/
def PatternManager.add_custom_pattern {C : Type}
    (compile : String → Nat → Option C) (m : PatternManager C)
    (level regex : String) (priority : Int) :
    Option String × PatternManager C :=
  match compile regex 0 with
  | none => (some ("Invalid regex pattern '" ++ regex ++ "'"), m)
  | some c =>
    (none,
      { m with
        custom_patterns :=
          alSet m.custom_patterns level
            ((alGet m.custom_patterns level).getD [] ++
              [⟨regex, priority, 0, c⟩]) })

/-- Delete the first pattern whose `regex_str` matches (patterns.py
246-253). -/
def removeFirst {C : Type} (regex : String) :
    List (LogPattern C) → Bool × List (LogPattern C)
  | [] => (false, [])
  | p :: ps =>
    if p.regex_str = regex then (true, ps)
    else
      let r := removeFirst regex ps
      (r.1, p :: r.2)

/-- `PatternManager.remove_custom_pattern` (patterns.py 232-253). -/
def PatternManager.remove_custom_pattern {C : Type} (m : PatternManager C)
    (level regex : String) : Bool × PatternManager C :=
  match alGet m.custom_patterns level with
  | none => (false, m)
  | some ps =>
    let r := removeFirst regex ps
    (r.1, { m with custom_patterns := alSet m.custom_patterns level r.2 })

/-- `PatternManager.validate_patterns` (patterns.py 255-275): re-compile
every stored pattern's source with its stored flags, collecting error
strings. -/
def PatternManager.validate_patterns {C : Type}
    (compile : String → Nat → Option C) (m : PatternManager C)
    (order : List String) : List String :=
  concatMap
    (fun lp : String × List (LogPattern C) =>
      lp.2.filterMap fun p =>
        match compile p.regex_str p.flags with
        | some _ => none
        | none =>
          some ("Invalid pattern in level " ++ lp.1 ++ ": " ++ p.regex_str))
    (m.get_all_patterns order)

/-- One entry of a `{patterns: {level: [...]}}` document: either a plain
string or a `{regex, priority, flags}` mapping. -/
inductive PatternConfigItem where
  | str (s : String)
  | obj (regex : String) (priority : Int) (flags : List String)
deriving DecidableEq

/-- A parsed configuration document. -/
structure PatternsConfig where
  patterns : List (String × List PatternConfigItem)
  custom_patterns : List (String × List PatternConfigItem)
deriving DecidableEq

/-- `PatternManager._parse_regex_flags` (patterns.py 129-143); the flag
words are `re.IGNORECASE = 2`, `re.MULTILINE = 8`, `re.DOTALL = 16`,
`re.VERBOSE = 64`. -/
def parseRegexFlags (flagsList : List String) : Nat :=
  flagsList.foldl
    (fun acc f =>
      if f = "IGNORECASE" then acc.lor 2
      else if f = "MULTILINE" then acc.lor 8
      else if f = "DOTALL" then acc.lor 16
      else if f = "VERBOSE" then acc.lor 64
      else acc)
    0

/-- One item of `_parse_patterns_config`: empty regexes are skipped
(`if regex:`), and a `LogPatternError` from the `LogPattern` constructor
is caught, logged and the item skipped. -/
def parseConfigItem {C : Type} (compile : String → Nat → Option C)
    (item : PatternConfigItem) : Option (LogPattern C) :=
  match item with
  | .str s => if s = "" then none else mkLogPattern compile s 1 0
  | .obj regex priority flags =>
    if regex = "" then none
    else mkLogPattern compile regex priority (parseRegexFlags flags)

/-- `PatternManager._parse_patterns_config` (patterns.py 83-127): for each
level of the document, set that level of the corresponding dict to the
successfully parsed items. -/
def parse_patterns_config {C : Type} (compile : String → Nat → Option C)
    (cfg : PatternsConfig) (m0 : PatternManager C) : PatternManager C :=
  { patterns :=
      cfg.patterns.foldl
        (fun acc lp => alSet acc lp.1 (lp.2.filterMap (parseConfigItem compile)))
        m0.patterns,
    custom_patterns :=
      cfg.custom_patterns.foldl
        (fun acc lp => alSet acc lp.1 (lp.2.filterMap (parseConfigItem compile)))
        m0.custom_patterns }

/-- `PatternManager._load_default_patterns` (patterns.py 145-170); fails
only if the engine rejects one of the built-in regexes (in Python these
eight literals always compile). -/
def load_default_patterns {C : Type} (compile : String → Nat → Option C) :
    Option (PatternManager C) :=
  match mkLogPattern compile "ERROR|Exception|Traceback|Fatal|Critical" 1 2,
    mkLogPattern compile "\\[ERROR\\]|\\[FATAL\\]|\\[CRITICAL\\]" 1 0,
    mkLogPattern compile "WARNING|WARN" 2 2,
    mkLogPattern compile "\\[WARNING\\]|\\[WARN\\]" 2 0,
    mkLogPattern compile "INFO|Starting|Stopping|Listening|Server" 3 2,
    mkLogPattern compile "\\[INFO\\]" 3 0,
    mkLogPattern compile "DEBUG" 4 2,
    mkLogPattern compile "\\[DEBUG\\]" 4 0 with
  | some e1, some e2, some w1, some w2, some i1, some i2, some d1, some d2 =>
    some
      { patterns :=
          [("error", [e1, e2]), ("warning", [w1, w2]), ("info", [i1, i2]),
            ("debug", [d1, d2])],
        custom_patterns := [] }
  | _, _, _, _, _, _, _, _ => none

/-- `PatternManager._load_patterns` (patterns.py 69-81), acting on the
current dicts.  `src = none` models a missing or corrupt configuration
source (fall back to the defaults); `src = some cfg` a successfully
loaded document. -/
def load_patterns {C : Type} (compile : String → Nat → Option C)
    (src : Option PatternsConfig) (m0 : PatternManager C) :
    Option (PatternManager C) :=
  match src with
  | some cfg => some (parse_patterns_config compile cfg m0)
  | none => load_default_patterns compile

/-- `PatternManager.reload_patterns` (patterns.py 277-282): clear both
dicts, then `_load_patterns`. -/
def PatternManager.reload_patterns {C : Type}
    (compile : String → Nat → Option C) (m : PatternManager C)
    (src : Option PatternsConfig) : Option (PatternManager C) :=
  load_patterns compile src { m with patterns := [], custom_patterns := [] }

/-- `PatternManager.__init__` (patterns.py 57-67): start from empty dicts
and `_load_patterns`. -/
def PatternManager.construct {C : Type} (compile : String → Nat → Option C)
    (src : Option PatternsConfig) : Option (PatternManager C) :=
  load_patterns compile src ⟨[], []⟩

/-- The `PatternManager` states reachable through its public lifecycle:
construction, successful or failed `add_custom_pattern`,
`remove_custom_pattern`, and `reload_patterns`. -/
inductive Reachable {C : Type} (compile : String → Nat → Option C) :
    PatternManager C → Prop where
  | construct : ∀ src m, PatternManager.construct compile src = some m →
      Reachable compile m
  | add : ∀ m level regex priority, Reachable compile m →
      Reachable compile
        (PatternManager.add_custom_pattern compile m level regex priority).2
  | remove : ∀ m level regex, Reachable compile m →
      Reachable compile (m.remove_custom_pattern level regex).2
  | reload : ∀ m src m', Reachable compile m →
      m.reload_patterns compile src = some m' → Reachable compile m'

/-- All patterns stored in either dict. -/
def allStored {C : Type} (m : PatternManager C) : List (LogPattern C) :=
  concatMap (fun x => x.2) m.patterns ++
    concatMap (fun x => x.2) m.custom_patterns

/-- Every stored pattern's source still compiles with its stored flags. -/
def wfPM {C : Type} (compile : String → Nat → Option C)
    (m : PatternManager C) : Prop :=
  ∀ p ∈ allStored m, (compile p.regex_str p.flags).isSome

theorem mkLogPattern_compiles {C : Type} (compile : String → Nat → Option C)
    (r : String) (pr : Int) (f : Nat) (p : LogPattern C)
    (h : mkLogPattern compile r pr f = some p) :
    compile p.regex_str p.flags = some p.compiled_regex := by
  cases hc : compile r f with
  | none => simp [mkLogPattern, hc] at h
  | some c =>
    simp only [mkLogPattern, hc, Option.map_some', Option.some.injEq] at h
    subst h
    exact hc

theorem parseConfigItem_compiles {C : Type} (compile : String → Nat → Option C)
    (item : PatternConfigItem) (p : LogPattern C)
    (h : parseConfigItem compile item = some p) :
    (compile p.regex_str p.flags).isSome := by
  cases item with
  | str s =>
    simp only [parseConfigItem] at h
    split_ifs at h
    rw [mkLogPattern_compiles compile _ _ _ _ h]
    rfl
  | obj regex priority flags =>
    simp only [parseConfigItem] at h
    split_ifs at h
    rw [mkLogPattern_compiles compile _ _ _ _ h]
    rfl

theorem removeFirst_subset {C : Type} (regex : String)
    (ps : List (LogPattern C)) (p : LogPattern C)
    (h : p ∈ (removeFirst regex ps).2) : p ∈ ps := by
  induction ps with
  | nil => simp [removeFirst] at h
  | cons q qs ih =>
    simp only [removeFirst] at h
    split_ifs at h
    · exact List.mem_cons_of_mem q h
    · rcases List.mem_cons.mp h with h | h
      · simp [h]
      · exact List.mem_cons_of_mem q (ih h)

theorem mem_foldl_alSet {β γ : Type} (l : List (String × β)) (g : β → List γ)
    (p : γ) :
    ∀ (base : List (String × List γ)),
      p ∈ concatMap (fun x => x.2)
          (l.foldl (fun acc lp => alSet acc lp.1 (g lp.2)) base) →
      p ∈ concatMap (fun x => x.2) base ∨ ∃ lp ∈ l, p ∈ g lp.2 := by
  induction l with
  | nil => intro base h; exact Or.inl h
  | cons hd tl ih =>
    intro base h
    rcases ih _ h with h' | h'
    · rcases mem_concatMap_snd_alSet _ _ _ _ h' with h'' | h''
      · exact Or.inr ⟨hd, List.mem_cons_self hd tl, h''⟩
      · exact Or.inl h''
    · obtain ⟨lp, hlp, hp⟩ := h'
      exact Or.inr ⟨lp, List.mem_cons_of_mem hd hlp, hp⟩

theorem wfPM_parse {C : Type} (compile : String → Nat → Option C)
    (cfg : PatternsConfig) (m0 : PatternManager C) (hwf : wfPM compile m0) :
    wfPM compile (parse_patterns_config compile cfg m0) := by
  intro p hp
  rcases List.mem_append.mp hp with h | h
  · rcases mem_foldl_alSet _ _ _ _ h with h' | h'
    · exact hwf p (List.mem_append.mpr (Or.inl h'))
    · obtain ⟨lp, _, hp'⟩ := h'
      obtain ⟨item, _, hitem⟩ := List.mem_filterMap.mp hp'
      exact parseConfigItem_compiles compile item p hitem
  · rcases mem_foldl_alSet _ _ _ _ h with h' | h'
    · exact hwf p (List.mem_append.mpr (Or.inr h'))
    · obtain ⟨lp, _, hp'⟩ := h'
      obtain ⟨item, _, hitem⟩ := List.mem_filterMap.mp hp'
      exact parseConfigItem_compiles compile item p hitem

theorem wfPM_default {C : Type} (compile : String → Nat → Option C)
    (m : PatternManager C) (h : load_default_patterns compile = some m) :
    wfPM compile m := by
  simp only [load_default_patterns] at h
  split at h
  case _ e1 e2 w1 w2 i1 i2 d1 d2 h1 h2 h3 h4 h5 h6 h7 h8 =>
    simp only [Option.some.injEq] at h
    subst h
    intro p hp
    simp only [allStored, concatMap, List.append_nil, List.nil_append,
      List.mem_append, List.mem_cons, List.not_mem_nil, or_false] at hp
    rcases hp with (hp | hp) | (hp | hp) | (hp | hp) | (hp | hp) <;> subst hp <;>
      first
        | (rw [mkLogPattern_compiles _ _ _ _ _ h1]; rfl)
        | (rw [mkLogPattern_compiles _ _ _ _ _ h2]; rfl)
        | (rw [mkLogPattern_compiles _ _ _ _ _ h3]; rfl)
        | (rw [mkLogPattern_compiles _ _ _ _ _ h4]; rfl)
        | (rw [mkLogPattern_compiles _ _ _ _ _ h5]; rfl)
        | (rw [mkLogPattern_compiles _ _ _ _ _ h6]; rfl)
        | (rw [mkLogPattern_compiles _ _ _ _ _ h7]; rfl)
        | (rw [mkLogPattern_compiles _ _ _ _ _ h8]; rfl)
  case _ =>
    simp at h

theorem wfPM_empty {C : Type} (compile : String → Nat → Option C) :
    wfPM compile ⟨[], []⟩ := by
  intro p hp
  simp [allStored, concatMap] at hp

theorem wfPM_load {C : Type} (compile : String → Nat → Option C)
    (src : Option PatternsConfig) (m0 m : PatternManager C)
    (hwf : wfPM compile m0) (h : load_patterns compile src m0 = some m) :
    wfPM compile m := by
  cases src with
  | some cfg =>
    simp only [load_patterns, Option.some.injEq] at h
    subst h
    exact wfPM_parse compile cfg m0 hwf
  | none => exact wfPM_default compile m h

theorem wfPM_add {C : Type} (compile : String → Nat → Option C)
    (m : PatternManager C) (level regex : String) (priority : Int)
    (hwf : wfPM compile m) :
    wfPM compile (PatternManager.add_custom_pattern compile m level regex priority).2 := by
  cases hc : compile regex 0 with
  | none => simpa [PatternManager.add_custom_pattern, hc] using hwf
  | some c =>
    simp only [PatternManager.add_custom_pattern, hc]
    intro p hp
    rcases List.mem_append.mp hp with h | h
    · exact hwf p (List.mem_append.mpr (Or.inl h))
    · rcases mem_concatMap_snd_alSet _ _ _ _ h with h' | h'
      · rcases List.mem_append.mp h' with h'' | h''
        · cases hg : alGet m.custom_patterns level with
          | none => rw [hg] at h''; simp at h''
          | some v =>
            rw [hg] at h''
            exact hwf p (List.mem_append.mpr (Or.inr (mem_of_alGet _ _ _ _ hg h'')))
        · simp only [List.mem_singleton] at h''
          subst h''
          simp [hc]
      · exact hwf p (List.mem_append.mpr (Or.inr h'))

theorem wfPM_remove {C : Type} (m : PatternManager C)
    (compile : String → Nat → Option C) (level regex : String)
    (hwf : wfPM compile m) :
    wfPM compile (m.remove_custom_pattern level regex).2 := by
  cases hg : alGet m.custom_patterns level with
  | none => simpa [PatternManager.remove_custom_pattern, hg] using hwf
  | some ps =>
    simp only [PatternManager.remove_custom_pattern, hg]
    intro p hp
    rcases List.mem_append.mp hp with h | h
    · exact hwf p (List.mem_append.mpr (Or.inl h))
    · rcases mem_concatMap_snd_alSet _ _ _ _ h with h' | h'
      · exact hwf p
          (List.mem_append.mpr
            (Or.inr (mem_of_alGet _ _ _ _ hg (removeFirst_subset _ _ _ h'))))
      · exact hwf p (List.mem_append.mpr (Or.inr h'))

theorem wfPM_reachable {C : Type} (compile : String → Nat → Option C)
    (m : PatternManager C) (h : Reachable compile m) : wfPM compile m := by
  induction h with
  | construct src m hm => exact wfPM_load compile src _ m (wfPM_empty compile) hm
  | add m level regex priority _ ih => exact wfPM_add compile m level regex priority ih
  | remove m level regex _ ih => exact wfPM_remove m compile level regex ih
  | reload m src m' _ hm ih =>
    exact wfPM_load compile src _ m' (wfPM_empty compile) hm

theorem get_patterns_subset {C : Type} (m : PatternManager C) (level : String)
    (p : LogPattern C) (h : p ∈ m.get_patterns level) : p ∈ allStored m := by
  rw [PatternManager.get_patterns, mem_sortByKey] at h
  rcases List.mem_append.mp h with h' | h'
  · cases hg : alGet m.patterns level with
    | none => rw [hg] at h'; simp at h'
    | some v =>
      rw [hg] at h'
      exact List.mem_append.mpr (Or.inl (mem_of_alGet _ _ _ _ hg h'))
  · cases hg : alGet m.custom_patterns level with
    | none => rw [hg] at h'; simp at h'
    | some v =>
      rw [hg] at h'
      exact List.mem_append.mpr (Or.inr (mem_of_alGet _ _ _ _ hg h'))

theorem concatMap_eq_nil {α β : Type} (f : α → List β) (l : List α)
    (h : ∀ x ∈ l, f x = []) : concatMap f l = [] := by
  induction l with
  | nil => rfl
  | cons x xs ih =>
    simp only [concatMap, h x (List.mem_cons_self x xs),
      List.nil_append]
    exact ih fun y hy => h y (List.mem_cons_of_mem x hy)

theorem validate_patterns_nil_of_wf {C : Type}
    (compile : String → Nat → Option C) (m : PatternManager C)
    (order : List String) (hwf : wfPM compile m) :
    PatternManager.validate_patterns compile m order = [] := by
  apply concatMap_eq_nil
  intro lp hlp
  rw [List.filterMap_eq_nil_iff]
  intro p hp
  obtain ⟨level, hlevel, rfl⟩ := List.mem_map.mp hlp
  have hmem := get_patterns_subset m level p hp
  have := hwf p hmem
  cases hc : compile p.regex_str p.flags with
  | none => rw [hc] at this; simp at this
  | some c => simp [hc]

/-! ### `log_parser/classifier.py` and `utils/helpers.py` -/

/-- A metadata value stored in a log-entry dict. -/
inductive MetaValue where
  | str (s : String)
  | num (n : Nat)
  | strList (l : List String)
deriving DecidableEq

/-- The dict built by `format_log_entry` (helpers.py 96-126).  Instants
are abstract `Nat` ticks (Python renders them with `isoformat`).  The
`extra` key is only written when `extra_data` is truthy; an absent key is
the empty list (every caller in the classifier passes a two-entry
dict). -/
structure LogEntryDict where
  timestamp : Nat
  level : String
  process_name : String
  message : String
  extra : List (String × MetaValue)
deriving DecidableEq

/-- `format_log_entry` (helpers.py 96-126): lower-cases the level and
strips the message. -/
def format_log_entry (timestamp : Nat) (level : String)
    (process_name : String) (message : String)
    (extra_data : List (String × MetaValue)) : LogEntryDict :=
  { timestamp := timestamp,
    level := pyLower level,
    process_name := process_name,
    message := pyStrip message,
    extra := extra_data }

/-- The `(level, priority)` pairs appended by `_detect_log_level`
(classifier.py 131-136), in collection order: level-major in the
iteration order of `get_all_patterns`, pattern order within a level. -/
def collectMatches {C : Type} (rmatch : C → String → Bool)
    (m : PatternManager C) (order : List String) (log_text : String) :
    List (String × Int) :=
  concatMap
    (fun lp : String × List (LogPattern C) =>
      (lp.2.filter fun p => p.matchText rmatch log_text).map
        fun p => (lp.1, p.priority))
    (m.get_all_patterns order)

/-- `LogClassifier._detect_log_level` (classifier.py 118-144): collect
all matches, stable-sort ascending by priority, return the first level,
defaulting to `"info"`. -/
def detect_log_level {C : Type} (rmatch : C → String → Bool)
    (m : PatternManager C) (order : List String) (log_text : String) :
    String :=
  match (sortByKey (fun x => x.2)
      (collectMatches rmatch m order log_text)).head? with
  | some lp => lp.1
  | none => "info"

/-- `LogClassifier._get_patterns_checked_count` (classifier.py 146-149). -/
def patterns_checked_count {C : Type} (m : PatternManager C)
    (order : List String) : Nat :=
  ((m.get_all_patterns order).map fun lp => lp.2.length).sum

/-- The classifier's `_classification_stats` dict. -/
structure ClassificationStats where
  total_classified : Nat
  by_level : List (String × Nat)
deriving DecidableEq

/-- `LogClassifier._update_stats` (classifier.py 151-158). -/
def updateClassificationStats (s : ClassificationStats) (level : String) :
    ClassificationStats :=
  { total_classified := s.total_classified + 1,
    by_level := alSet s.by_level level ((alGet s.by_level level).getD 0 + 1) }

/-- The dict installed by `LogClassifier.reset_stats` (classifier.py
169-175) and by `__init__`. -/
def classifierResetStats : ClassificationStats := ⟨0, []⟩

/-- `LogClassifier.classify_log_entry` (classifier.py 33-71): build the
entry and update the classifier stats with the detected level. -/
def classify_log_entry {C : Type} (rmatch : C → String → Bool)
    (m : PatternManager C) (order : List String)
    (cstats : ClassificationStats) (log_text process_name : String)
    (timestamp : Option Nat) (now : Nat) :
    LogEntryDict × ClassificationStats :=
  let ts := timestamp.getD now
  let detected_level := detect_log_level rmatch m order log_text
  let entry := format_log_entry ts detected_level process_name log_text
    [("classification_method", .str "pattern_matching"),
      ("patterns_checked", .num (patterns_checked_count m order))]
  (entry, updateClassificationStats cstats detected_level)

/-! ### `log_parser/parser.py` -/

/-- The `_processing_stats` dict.  `total_processed`,
`processing_errors` and `start_time` are present both in the
constructor's dict and in the one installed by `reset_stats`; the
remaining keys exist only in the constructor's dict, hence are modelled
as `Option` (`none` = key absent).  The float `processing_rate` is
abstracted to a `Nat` ratio. -/
structure ProcessingStats where
  total_processed : Nat
  processing_errors : Nat
  start_time : Nat
  level_counts : Option (List (String × Nat))
  process_counts : Option (List (String × Nat))
  pattern_matches : Option (List (String × Nat))
  processing_rate : Option Nat
deriving DecidableEq

/-- The stats dict built by `LogParser.__init__` (parser.py 34-42). -/
def initialProcessingStats (now : Nat) : ProcessingStats :=
  ⟨0, 0, now, some [], some [], some [], some 0⟩

/-- The stats dict installed by `LogParser.reset_stats` (parser.py
509-513): only three keys. -/
def resetProcessingStats (now : Nat) : ProcessingStats :=
  ⟨0, 0, now, none, none, none, none⟩

/-- `LogParser` state (parser.py 22-52): shared pattern manager,
classifier stats, registered callbacks (identified by abstract `Nat`
tokens), processing stats, `_last_stats_update`, and the bounded
background `_processing_queue` (`maxsize=1000` at construction). -/
structure LogParserState (C : Type) where
  pattern_manager : PatternManager C
  classification_stats : ClassificationStats
  callbacks : List Nat
  processing_stats : ProcessingStats
  last_stats_update : Nat
  processing_queue : List (String × String × Option Nat)
  queue_maxsize : Nat
deriving DecidableEq

/-- `LogParser.reset_stats` (parser.py 507-515): replace the stats dict
(dropping the detailed keys) and reset the classifier stats; callbacks
are not touched. -/
def LogParserState.reset_stats {C : Type} (st : LogParserState C)
    (now : Nat) : LogParserState C :=
  { st with
    processing_stats := resetProcessingStats now,
    classification_stats := classifierResetStats }

/-- `LogParser._update_detailed_stats` (parser.py 191-225).  `none`
models the `KeyError` raised when a dict key indexed with `[...]` is
absent.  The `matched_patterns` key is absent from every entry built by
`classify_log_entry`, so the pattern-match loop runs zero times and
`pattern_matches` is never indexed.  Returns the new stats and the new
`_last_stats_update`. -/
def update_detailed_stats (stats : ProcessingStats) (last_update : Nat)
    (entry : LogEntryDict) (now : Nat) :
    Option (ProcessingStats × Nat) :=
  match stats.level_counts with
  | none => none
  | some lc =>
    let lc' := alSet lc entry.level ((alGet lc entry.level).getD 0 + 1)
    match stats.process_counts with
    | none => none
    | some pc =>
      let pc' := alSet pc entry.process_name
        ((alGet pc entry.process_name).getD 0 + 1)
      let s1 := { stats with
        level_counts := some lc', process_counts := some pc' }
      if 10 ≤ now - last_update then
        if 0 < now - s1.start_time then
          some ({ s1 with
            processing_rate :=
              some (s1.total_processed / (now - s1.start_time)) }, now)
        else some (s1, now)
      else some (s1, last_update)

/-- `LogParser.parse_log_line` (parser.py 54-94).  `.ok none` is the `{}`
returned for a whitespace-only line; `.error` is the raised
`LogParserError`.  Classifier stats and `total_processed` are updated
before `_update_detailed_stats` runs; when the latter raises, the
`except` block increments `processing_errors` and re-raises.  Observer
callbacks have no effect on this state (their failures are swallowed). -/
def parse_log_line {C : Type} (rmatch : C → String → Bool)
    (order : List String) (st : LogParserState C)
    (log_line process_name : String) (timestamp : Option Nat) (now : Nat) :
    Except String (Option LogEntryDict) × LogParserState C :=
  let cleaned_line := pyStrip log_line
  if cleaned_line = "" then (.ok none, st)
  else
    let ec := classify_log_entry rmatch st.pattern_manager order
      st.classification_stats cleaned_line process_name timestamp now
    let st1 := { st with
      classification_stats := ec.2,
      processing_stats := { st.processing_stats with
        total_processed := st.processing_stats.total_processed + 1 } }
    match update_detailed_stats st1.processing_stats st1.last_stats_update
        ec.1 now with
    | some su =>
      (.ok (some ec.1),
        { st1 with processing_stats := su.1, last_stats_update := su.2 })
    | none =>
      (.error "Failed to parse log line",
        { st1 with
          processing_stats := { st1.processing_stats with
            processing_errors := st1.processing_stats.processing_errors + 1 } })

/-- `LogParser.queue_log_for_processing` (parser.py 277-300):
`put_nowait` on the bounded queue; `QueueFull` (raised when the queue has
a positive `maxsize` and is at capacity) is caught and turned into
`False`. -/
def queue_log_for_processing {C : Type} (st : LogParserState C)
    (log_line process_name : String) (timestamp : Option Nat) :
    Bool × LogParserState C :=
  if 0 < st.queue_maxsize ∧ st.queue_maxsize ≤ st.processing_queue.length
  then (false, st)
  else
    (true, { st with
      processing_queue :=
        st.processing_queue ++ [(log_line, process_name, timestamp)] })

/-! ### `infrastructure/repositories.py` -/

/-- `collections.deque(maxlen=cap).append`: append, evicting from the
left when over capacity. -/
def dequeAppend {α : Type} (cap : Nat) (q : List α) (x : α) : List α :=
  let q' := q ++ [x]
  if q'.length ≤ cap then q' else q'.drop (q'.length - cap)

/-- The last `n` elements of a list, in order. -/
def takeLast {α : Type} (n : Nat) (l : List α) : List α :=
  l.drop (l.length - n)

/-- `InMemoryLogRepository` state (repositories.py 49-58): per-key deques
of capacity `max_logs_per_process` (a `defaultdict`) and a global deque
of capacity `max_logs_per_process * 10`.  Entries are abstract (`E`);
`keyOf` extracts `log_entry.process_name`. -/
structure InMemoryLogRepository (E : Type) where
  max_logs_per_process : Nat
  logs : List (String × List E)
  all_logs : List E
deriving DecidableEq

/-- `InMemoryLogRepository.__init__` (repositories.py 52-58). -/
def InMemoryLogRepository.empty (E : Type) (cap : Nat) :
    InMemoryLogRepository E :=
  ⟨cap, [], []⟩

/-- `InMemoryLogRepository.save_log_entry` (repositories.py 60-70):
append to the entry's per-key deque (created on demand by the
`defaultdict`) and to the global deque. -/
def save_log_entry {E : Type} (keyOf : E → String)
    (repo : InMemoryLogRepository E) (e : E) : InMemoryLogRepository E :=
  { repo with
    logs :=
      alSet repo.logs (keyOf e)
        (dequeAppend repo.max_logs_per_process
          ((alGet repo.logs (keyOf e)).getD []) e),
    all_logs := dequeAppend (repo.max_logs_per_process * 10) repo.all_logs e }

/-! ### A concrete regex-engine instance, used to exhibit witnesses.

Compiled patterns are the pattern strings themselves, matching is
literal-substring search (the behaviour of `re.search` on a literal
pattern), and `"["` stands for a non-compilable expression (it is a
genuine `re.error` in Python). -/

def isPre : List Char → List Char → Bool
  | [], _ => true
  | _ :: _, [] => false
  | a :: as, b :: bs => a = b && isPre as bs

def subAt : List Char → List Char → Bool
  | pat, [] => isPre pat []
  | pat, c :: ts => isPre pat (c :: ts) || subAt pat ts

def toyCompile (s : String) (_flags : Nat) : Option String :=
  if s = "[" then none else some s

def toyMatch (c : String) (text : String) : Bool :=
  subAt c.data text.data

/-- A small manager: one priority-1 error pattern, one priority-2
warning pattern. -/
def toyM1 : PatternManager String :=
  { patterns :=
      [("error", [⟨"E", 1, 0, "E"⟩]), ("warning", [⟨"W", 2, 0, "W"⟩])],
    custom_patterns := [] }

/-- Two levels holding patterns with the identical priority 1. -/
def toyM2 : PatternManager String :=
  { patterns :=
      [("error", [⟨"E", 1, 0, "E"⟩]), ("alpha", [⟨"A", 1, 0, "A"⟩])],
    custom_patterns := [] }

theorem mem_concatMap {α β : Type} (f : α → List β) (l : List α) (b : β) :
    b ∈ concatMap f l ↔ ∃ a ∈ l, b ∈ f a := by
  induction l with
  | nil => simp [concatMap]
  | cons x xs ih => simp [concatMap, ih]

/-! ## Claims -/

/-- C1: for every input line and loaded pattern set,
`LogClassifier._detect_log_level` collects exactly the `(level,
priority)` pairs of the matching patterns across all levels of the
iterated level set, returns the level of a match of globally minimum
priority (so whenever every minimum-priority match carries the same
level `L` — e.g. priorities 1 and 2 both match — it returns `L`
regardless of registration order), and returns `"info"` when nothing
matches. -/
theorem c1_detect_log_level {C : Type} (rmatch : C → String → Bool)
    (m : PatternManager C) (order : List String) (log_text : String)
    (hord : orderOk m order) :
    (∀ level priority,
      (level, priority) ∈ collectMatches rmatch m order log_text ↔
        level ∈ m.levels ∧ ∃ p ∈ m.get_patterns level,
          p.matchText rmatch log_text = true ∧ p.priority = priority) ∧
    (collectMatches rmatch m order log_text = [] →
      detect_log_level rmatch m order log_text = "info") ∧
    (∀ L, collectMatches rmatch m order log_text ≠ [] →
      (∀ x ∈ collectMatches rmatch m order log_text,
        (∀ y ∈ collectMatches rmatch m order log_text, x.2 ≤ y.2) →
        x.1 = L) →
      detect_log_level rmatch m order log_text = L) := by
  refine ⟨?_, ?_, ?_⟩
  · intro level priority
    rw [collectMatches, mem_concatMap]
    constructor
    · rintro ⟨lp, hlp, hx⟩
      obtain ⟨lvl, hl, rfl⟩ := List.mem_map.mp hlp
      obtain ⟨p, hp, hpe⟩ := List.mem_map.mp hx
      obtain ⟨h1, h2⟩ := Prod.mk.injEq .. ▸ hpe
      subst h1
      obtain ⟨hp1, hp2⟩ := List.mem_filter.mp hp
      exact ⟨hord.mem_iff.mp hl, p, hp1, hp2, h2⟩
    · rintro ⟨hlev, p, hp, hmatch, rfl⟩
      refine ⟨(level, m.get_patterns level),
        List.mem_map.mpr ⟨level, hord.mem_iff.mpr hlev, rfl⟩,
        List.mem_map.mpr ⟨p, List.mem_filter.mpr ⟨hp, hmatch⟩, rfl⟩⟩
  · intro h
    simp [detect_log_level, h, sortByKey]
  · intro L hne hmin
    rw [detect_log_level, sortByKey_head]
    cases hfm : firstMinBy (fun x : String × Int => x.2)
        (collectMatches rmatch m order log_text) with
    | none =>
      cases hc : collectMatches rmatch m order log_text with
      | nil => exact absurd hc hne
      | cons a t => rw [hc] at hfm; exact absurd hfm (firstMinBy_ne_none _ a t)
    | some m0 =>
      have hmem := firstMinBy_mem _ _ _ hfm
      have hle := firstMinBy_le _ _ _ hfm
      exact hmin m0 hmem hle

/-- Witness for C1 at a concrete manager, order and line: `"E W"`
matches both the priority-1 `error` pattern and the priority-2
`warning` pattern and classifies as `error`. -/
theorem c1_witness :
    detect_log_level toyMatch toyM1 ["error", "warning"] "E W" = "error" :=
  (c1_detect_log_level toyMatch toyM1 ["error", "warning"] "E W"
    (by decide)).2.2 "error" (by decide) (by decide)

/-- C2 counterexample: a single registration state whose two levels hold
patterns of identical priority 1; both `["error", "alpha"]` and
`["alpha", "error"]` are valid iteration orders of its level set, and
classify returns a different level under each, so the result is not a
function of the registration history alone and no documented secondary
key is applied. -/
theorem c2_counterexample :
    orderOk toyM2 ["error", "alpha"] ∧ orderOk toyM2 ["alpha", "error"] ∧
    detect_log_level toyMatch toyM2 ["error", "alpha"] "E A" = "error" ∧
    detect_log_level toyMatch toyM2 ["alpha", "error"] "E A" = "alpha" := by
  refine ⟨?_, ?_, by decide, by decide⟩
  · decide
  · decide

/-- C2 (amended): ties between matches of equal minimal priority are
broken by collection order — the match collected first wins, i.e. the
tied level that appears first in the incidental iteration order of the
level set — not by a documented secondary key: `_detect_log_level`
returns the level of the first collected match of minimal priority
(`"info"` when nothing matches). -/
theorem c2_amended_tiebreak {C : Type} (rmatch : C → String → Bool)
    (m : PatternManager C) (order : List String) (log_text : String) :
    detect_log_level rmatch m order log_text =
      match firstMinBy (fun x : String × Int => x.2)
          (collectMatches rmatch m order log_text) with
      | some lp => lp.1
      | none => "info" := by
  rw [detect_log_level, sortByKey_head]

/-- C3: `add_custom_pattern` with a non-compilable regex raises
`LogPatternError` and leaves both pattern dicts exactly as they were;
with a compilable regex it appends the new pattern to that level's
custom list (compiled with flags 0) and touches nothing else. -/
theorem c3_add_custom_pattern {C : Type} (compile : String → Nat → Option C)
    (m : PatternManager C) (level regex : String) (priority : Int) :
    (compile regex 0 = none →
      PatternManager.add_custom_pattern compile m level regex priority =
        (some ("Invalid regex pattern '" ++ regex ++ "'"), m)) ∧
    (∀ c, compile regex 0 = some c →
      (PatternManager.add_custom_pattern compile m level regex priority).1 =
        none ∧
      (PatternManager.add_custom_pattern compile m level regex
        priority).2.patterns = m.patterns ∧
      alGet (PatternManager.add_custom_pattern compile m level regex
          priority).2.custom_patterns level =
        some ((alGet m.custom_patterns level).getD [] ++
          [⟨regex, priority, 0, c⟩]) ∧
      ∀ level', level' ≠ level →
        alGet (PatternManager.add_custom_pattern compile m level regex
            priority).2.custom_patterns level' =
          alGet m.custom_patterns level') := by
  constructor
  · intro h
    simp [PatternManager.add_custom_pattern, h]
  · intro c h
    refine ⟨?_, ?_, ?_, ?_⟩
    · simp [PatternManager.add_custom_pattern, h]
    · simp [PatternManager.add_custom_pattern, h]
    · simp [PatternManager.add_custom_pattern, h, alGet_alSet_self]
    · intro level' hne
      simp [PatternManager.add_custom_pattern, h, alGet_alSet_ne _ _ _ _ hne]

/-- Witness for C3: on the empty manager, adding the invalid regex `"["`
fails and returns the state unchanged, while adding `"OOM"` appends it
to the `critical` custom list. -/
theorem c3_witness :
    PatternManager.add_custom_pattern toyCompile ⟨[], []⟩ "critical" "[" 0 =
      (some "Invalid regex pattern '['", (⟨[], []⟩ : PatternManager String)) ∧
    alGet (PatternManager.add_custom_pattern toyCompile ⟨[], []⟩ "critical"
        "OOM" 0).2.custom_patterns "critical" =
      some [⟨"OOM", 0, 0, "OOM"⟩] := by
  constructor
  · exact (c3_add_custom_pattern toyCompile ⟨[], []⟩ "critical" "[" 0).1
      (by decide)
  · exact ((c3_add_custom_pattern toyCompile ⟨[], []⟩ "critical" "OOM" 0).2
      "OOM" (by decide)).2.2.1

/-! ### Deque lemmas for C4 -/

theorem dequeAppend_eq_takeLast {α : Type} (cap : Nat) (q : List α) (x : α) :
    dequeAppend cap q x = takeLast cap (q ++ [x]) := by
  simp only [dequeAppend, takeLast]
  split_ifs with h
  · rw [Nat.sub_eq_zero_of_le h, List.drop_zero]
  · rfl

theorem takeLast_length_le {α : Type} (n : Nat) (l : List α) :
    (takeLast n l).length ≤ n := by
  simp only [takeLast, List.length_drop]
  omega

theorem takeLast_of_length_le {α : Type} (n : Nat) (l : List α)
    (h : l.length ≤ n) : takeLast n l = l := by
  simp [takeLast, Nat.sub_eq_zero_of_le h]

theorem takeLast_append_left {α : Type} (n : Nat) (c l : List α)
    (h : n ≤ l.length) : takeLast n (c ++ l) = takeLast n l := by
  rw [takeLast, takeLast, List.length_append]
  have harith : c.length + l.length - n = c.length + (l.length - n) := by omega
  rw [harith, List.drop_append]

theorem takeLast_append_takeLast {α : Type} (n : Nat) (a b : List α) :
    takeLast n (takeLast n a ++ b) = takeLast n (a ++ b) := by
  by_cases h : n ≤ a.length
  · have hside : n ≤ (a.drop (a.length - n) ++ b).length := by
      rw [List.length_append, List.length_drop]
      omega
    conv_rhs =>
      rw [← List.take_append_drop (a.length - n) a, List.append_assoc,
        takeLast_append_left n _ _ hside]
    rfl
  · have hall : takeLast n a = a := by
      rw [takeLast, Nat.sub_eq_zero_of_le (by omega), List.drop_zero]
    rw [hall]

theorem foldl_dequeAppend {α : Type} (cap : Nat) :
    ∀ (es : List α) (q : List α), q.length ≤ cap →
      es.foldl (dequeAppend cap) q = takeLast cap (q ++ es) := by
  intro es
  induction es with
  | nil =>
    intro q hq
    simp [takeLast_of_length_le cap q hq]
  | cons e es ih =>
    intro q hq
    rw [List.foldl_cons, dequeAppend_eq_takeLast,
      ih _ (takeLast_length_le _ _), takeLast_append_takeLast,
      List.append_assoc, List.singleton_append]

/-- The per-key buffer `self._logs[k]` (empty when the `defaultdict` has
not created it yet). -/
def perKeyBuffer {E : Type} (repo : InMemoryLogRepository E) (k : String) :
    List E :=
  (alGet repo.logs k).getD []

theorem save_foldl_spec {E : Type} (keyOf : E → String) (cap : Nat)
    (k : String) :
    ∀ (es : List E) (repo : InMemoryLogRepository E),
      repo.max_logs_per_process = cap →
      perKeyBuffer (es.foldl (save_log_entry keyOf) repo) k =
        (es.filter fun e => decide (keyOf e = k)).foldl (dequeAppend cap)
          (perKeyBuffer repo k) ∧
      (es.foldl (save_log_entry keyOf) repo).all_logs =
        es.foldl (dequeAppend (cap * 10)) repo.all_logs ∧
      (es.foldl (save_log_entry keyOf) repo).max_logs_per_process = cap := by
  intro es
  induction es with
  | nil => intro repo hcap; exact ⟨rfl, rfl, hcap⟩
  | cons e es ih =>
    intro repo hcap
    have hsave_max : (save_log_entry keyOf repo e).max_logs_per_process = cap :=
      hcap
    obtain ⟨h1, h2, h3⟩ := ih (save_log_entry keyOf repo e) hsave_max
    refine ⟨?_, ?_, h3⟩
    · rw [List.foldl_cons, h1]
      by_cases hk : keyOf e = k
      · have hbuf : perKeyBuffer (save_log_entry keyOf repo e) k =
            dequeAppend cap (perKeyBuffer repo k) e := by
          simp [save_log_entry, perKeyBuffer, hk, alGet_alSet_self, hcap]
        rw [hbuf]
        simp [List.filter_cons, hk]
      · have hbuf : perKeyBuffer (save_log_entry keyOf repo e) k =
            perKeyBuffer repo k := by
          simp [save_log_entry, perKeyBuffer,
            alGet_alSet_ne _ _ _ _ (Ne.symm hk)]
        rw [hbuf]
        simp [List.filter_cons, hk]
    · have hsl : (save_log_entry keyOf repo e).all_logs =
          dequeAppend (cap * 10) repo.all_logs e := by
        simp [save_log_entry, hcap]
      rw [List.foldl_cons, h2, List.foldl_cons, hsl]

/-- C4: starting from a fresh repository of per-key capacity `cap`,
after any sequence of `save_log_entry` calls each per-key buffer holds
exactly the last `cap` entries saved for that key, in insertion order
(FIFO eviction), the global buffer holds the last `10 * cap` entries
overall, and neither ever exceeds its capacity. -/
theorem c4_bounded_buffers {E : Type} (keyOf : E → String) (cap : Nat)
    (es : List E) (k : String) :
    perKeyBuffer (es.foldl (save_log_entry keyOf)
        (InMemoryLogRepository.empty E cap)) k =
      takeLast cap (es.filter fun e => decide (keyOf e = k)) ∧
    (es.foldl (save_log_entry keyOf)
        (InMemoryLogRepository.empty E cap)).all_logs =
      takeLast (cap * 10) es ∧
    (perKeyBuffer (es.foldl (save_log_entry keyOf)
        (InMemoryLogRepository.empty E cap)) k).length ≤ cap ∧
    (es.foldl (save_log_entry keyOf)
        (InMemoryLogRepository.empty E cap)).all_logs.length ≤ cap * 10 := by
  obtain ⟨h1, h2, h3⟩ :=
    save_foldl_spec keyOf cap k es (InMemoryLogRepository.empty E cap) rfl
  have hper : perKeyBuffer (es.foldl (save_log_entry keyOf)
      (InMemoryLogRepository.empty E cap)) k =
      takeLast cap (es.filter fun e => decide (keyOf e = k)) := by
    rw [h1]
    have := foldl_dequeAppend cap (es.filter fun e => decide (keyOf e = k)) []
      (by simp)
    simpa [perKeyBuffer, InMemoryLogRepository.empty, alGet] using this
  have hall : (es.foldl (save_log_entry keyOf)
      (InMemoryLogRepository.empty E cap)).all_logs =
      takeLast (cap * 10) es := by
    rw [h2]
    have := foldl_dequeAppend (cap * 10) es [] (by simp)
    simpa [InMemoryLogRepository.empty] using this
  exact ⟨hper, hall, hper ▸ takeLast_length_le _ _,
    hall ▸ takeLast_length_le _ _⟩

/-- A concrete parser state over the toy engine (fresh construction
state: full stats dict, `maxsize=1000` queue). -/
def toyParserState : LogParserState String :=
  { pattern_manager := toyM1,
    classification_stats := classifierResetStats,
    callbacks := [],
    processing_stats := initialProcessingStats 0,
    last_stats_update := 0,
    processing_queue := [],
    queue_maxsize := 1000 }

/-- A parser state whose background queue is at capacity. -/
def toyFullParserState : LogParserState String :=
  { toyParserState with
    queue_maxsize := 1,
    processing_queue := [("x", "p", none)] }

/-- C5: when the bounded background queue is at capacity,
`queue_log_for_processing` returns `false` — a boolean, not an
exception, and without blocking — and leaves the state unchanged (so
`total_processed` is not incremented); when there is free space the item
is appended and the call returns `true`.  `total_processed` is untouched
in every case. -/
theorem c5_queue_full_drops {C : Type} (st : LogParserState C)
    (line pn : String) (ts : Option Nat) :
    (0 < st.queue_maxsize →
      st.queue_maxsize ≤ st.processing_queue.length →
      queue_log_for_processing st line pn ts = (false, st)) ∧
    (st.processing_queue.length < st.queue_maxsize →
      (queue_log_for_processing st line pn ts).1 = true ∧
      (queue_log_for_processing st line pn ts).2.processing_queue =
        st.processing_queue ++ [(line, pn, ts)] ∧
      (queue_log_for_processing st line pn ts).2.processing_stats =
        st.processing_stats) ∧
    (queue_log_for_processing st line pn
        ts).2.processing_stats.total_processed =
      st.processing_stats.total_processed := by
  refine ⟨?_, ?_, ?_⟩
  · intro h1 h2
    simp [queue_log_for_processing, h1, h2]
  · intro h
    have hnot : ¬(0 < st.queue_maxsize ∧
        st.queue_maxsize ≤ st.processing_queue.length) := by omega
    simp [queue_log_for_processing, hnot]
  · by_cases h : 0 < st.queue_maxsize ∧
        st.queue_maxsize ≤ st.processing_queue.length <;>
      simp [queue_log_for_processing, h]

/-- Witness for C5: a full queue drops the item and returns `false`; a
queue with free space accepts it and returns `true`. -/
theorem c5_witness :
    queue_log_for_processing toyFullParserState "a" "p" none =
      (false, toyFullParserState) ∧
    (queue_log_for_processing toyParserState "a" "p" none).1 = true :=
  ⟨(c5_queue_full_drops toyFullParserState "a" "p" none).1 (by decide)
      (by decide),
    ((c5_queue_full_drops toyParserState "a" "p" none).2.1 (by decide)).1⟩

/-- C6 counterexample: on a line that a pattern does match (it
classifies as `error`), the metadata of the entry built by
`classify_log_entry` consists of exactly the `classification_method` tag
and the `patterns_checked` count — no key holds a list of matched
pattern identifiers (no metadata value is a list at all). -/
theorem c6_counterexample :
    (classify_log_entry toyMatch toyM1 ["error", "warning"]
        classifierResetStats "E fail" "svc" none 0).1.level = "error" ∧
    (classify_log_entry toyMatch toyM1 ["error", "warning"]
        classifierResetStats "E fail" "svc" none 0).1.extra.map Prod.fst =
      ["classification_method", "patterns_checked"] ∧
    ((classify_log_entry toyMatch toyM1 ["error", "warning"]
        classifierResetStats "E fail" "svc" none 0).1.extra.all
      fun kv =>
        match kv.2 with
        | MetaValue.strList _ => false
        | _ => true) = true := by
  refine ⟨by decide, by decide, by decide⟩

/-- C6 (amended): the metadata of every entry built by
`classify_log_entry` is exactly a `classification_method` tag
(`"pattern_matching"`) and the total `patterns_checked` count of
patterns consulted; the identifiers of the patterns that matched are not
recorded. -/
theorem c6_amended_metadata {C : Type} (rmatch : C → String → Bool)
    (m : PatternManager C) (order : List String)
    (cstats : ClassificationStats) (log_text process_name : String)
    (timestamp : Option Nat) (now : Nat) :
    (classify_log_entry rmatch m order cstats log_text process_name
        timestamp now).1.extra =
      [("classification_method", MetaValue.str "pattern_matching"),
        ("patterns_checked", MetaValue.num (patterns_checked_count m order))] :=
  rfl

/-- C7: `reset_stats` is idempotent — a second consecutive call yields
the same zeroed statistics state as one call — and it neither touches
the registered callbacks nor anything besides the two stats
structures. -/
theorem c7_reset_stats_idempotent {C : Type} (st : LogParserState C)
    (t1 t2 : Nat) :
    (st.reset_stats t1).reset_stats t2 = st.reset_stats t2 ∧
    (st.reset_stats t1).callbacks = st.callbacks ∧
    (st.reset_stats t1).processing_stats = resetProcessingStats t1 ∧
    (st.reset_stats t1).classification_stats = classifierResetStats :=
  ⟨rfl, rfl, rfl, rfl⟩

/-- C8: `reset_stats` installs a stats dict without the `level_counts`
key, and on any state missing that key every `parse_log_line` call on a
non-empty line raises `LogParserError` (the `KeyError` from
`_update_detailed_stats` is caught and re-raised), increments
`processing_errors`, and leaves the key missing — so single-line
ingestion never succeeds again on that parser instance. -/
theorem c8_reset_breaks_parse {C : Type} (rmatch : C → String → Bool)
    (order : List String) (st0 : LogParserState C) (t : Nat) :
    ((st0.reset_stats t).processing_stats.level_counts = none) ∧
    (∀ (st : LogParserState C) (line pn : String) (ts : Option Nat)
        (now : Nat),
      st.processing_stats.level_counts = none →
      pyStrip line ≠ "" →
      (parse_log_line rmatch order st line pn ts now).1 =
        .error "Failed to parse log line" ∧
      (parse_log_line rmatch order st line pn ts
          now).2.processing_stats.processing_errors =
        st.processing_stats.processing_errors + 1 ∧
      (parse_log_line rmatch order st line pn ts
          now).2.processing_stats.level_counts = none) := by
  refine ⟨rfl, ?_⟩
  intro st line pn ts now h1 h2
  simp only [parse_log_line]
  rw [if_neg h2]
  simp [update_detailed_stats, h1]

/-- Witness for C8: after `reset_stats`, parsing the non-empty line
`"ERROR x"` fails with `LogParserError` and bumps `processing_errors`
to 1. -/
theorem c8_witness :
    (parse_log_line toyMatch ["error", "warning"]
        (toyParserState.reset_stats 5) "ERROR x" "svc" none 6).1 =
      .error "Failed to parse log line" ∧
    (parse_log_line toyMatch ["error", "warning"]
        (toyParserState.reset_stats 5) "ERROR x" "svc" none
        6).2.processing_stats.processing_errors = 1 := by
  have h := c8_reset_breaks_parse toyMatch ["error", "warning"]
    toyParserState 5
  have h2 := h.2 (toyParserState.reset_stats 5) "ERROR x" "svc" none 6 h.1
    (by decide)
  exact ⟨h2.1, h2.2.1⟩

/-- C9: on every reachable `PatternManager` state, `validate_patterns`
returns the empty list: every stored pattern compiled when it was
constructed, invalid regexes are rejected at registration or skipped
during load and never stored, and re-compiling `regex_str` with the
stored flags therefore never produces an error string. -/
theorem c9_validate_patterns_empty {C : Type}
    (compile : String → Nat → Option C) (m : PatternManager C)
    (h : Reachable compile m) (order : List String) :
    PatternManager.validate_patterns compile m order = [] :=
  validate_patterns_nil_of_wf compile m order (wfPM_reachable compile m h)

/-- Witness for C9: a manager built from an empty document and a
successful `add_custom_pattern` validates cleanly. -/
theorem c9_witness :
    PatternManager.validate_patterns toyCompile
      (PatternManager.add_custom_pattern toyCompile ⟨[], []⟩ "critical"
        "OOM" 0).2 ["critical"] = [] :=
  c9_validate_patterns_empty toyCompile _
    (Reachable.add ⟨[], []⟩ "critical" "OOM" 0
      (Reachable.construct (some ⟨[], []⟩) ⟨[], []⟩ rfl))
    ["critical"]

def toyP (s : String) (pr : Int) (f : Nat) : LogPattern String :=
  ⟨s, pr, f, s⟩

/-- The default pattern set as loaded under the toy engine. -/
def toyDefaultPM : PatternManager String :=
  { patterns :=
      [("error",
          [toyP "ERROR|Exception|Traceback|Fatal|Critical" 1 2,
            toyP "\\[ERROR\\]|\\[FATAL\\]|\\[CRITICAL\\]" 1 0]),
        ("warning",
          [toyP "WARNING|WARN" 2 2, toyP "\\[WARNING\\]|\\[WARN\\]" 2 0]),
        ("info",
          [toyP "INFO|Starting|Stopping|Listening|Server" 3 2,
            toyP "\\[INFO\\]" 3 0]),
        ("debug", [toyP "DEBUG" 4 2, toyP "\\[DEBUG\\]" 4 0])],
    custom_patterns := [] }

/-- C10: `reload_patterns` clears both dicts and re-reads only the
configuration source, so its result coincides with constructing a fresh
manager from that source; with a missing source the defaults (whose
custom set is empty) are installed, and with a present source every
custom pattern after the reload comes from the document — any custom
pattern previously added by `add_custom_pattern` and absent from the
source is discarded. -/
theorem c10_reload_discards_custom {C : Type}
    (compile : String → Nat → Option C) (m : PatternManager C)
    (src : Option PatternsConfig) :
    m.reload_patterns compile src = PatternManager.construct compile src ∧
    (∀ m', m.reload_patterns compile none = some m' →
      m'.custom_patterns = []) ∧
    (∀ cfg m' p, m.reload_patterns compile (some cfg) = some m' →
      p ∈ concatMap (fun x => x.2) m'.custom_patterns →
      ∃ lp ∈ cfg.custom_patterns, ∃ item ∈ lp.2,
        parseConfigItem compile item = some p) := by
  refine ⟨rfl, ?_, ?_⟩
  · intro m' h
    simp only [PatternManager.reload_patterns, load_patterns] at h
    simp only [load_default_patterns] at h
    split at h
    · simp only [Option.some.injEq] at h
      subst h
      rfl
    · simp at h
  · intro cfg m' p h hp
    simp only [PatternManager.reload_patterns, load_patterns,
      Option.some.injEq] at h
    subst h
    simp only [parse_patterns_config] at hp
    rcases mem_foldl_alSet _ _ _ _ hp with h' | h'
    · simp [concatMap] at h'
    · obtain ⟨lp, hlp, hmem⟩ := h'
      obtain ⟨item, hitem, hpe⟩ := List.mem_filterMap.mp hmem
      exact ⟨lp, hlp, item, hitem, hpe⟩

/-- Witness for C10: a custom `"OOM"` pattern is present after
`add_custom_pattern`, and reloading with a missing source yields the
default set, whose custom dict is empty — the added pattern is gone. -/
theorem c10_witness :
    (alGet (PatternManager.add_custom_pattern toyCompile ⟨[], []⟩
        "critical" "OOM" 0).2.custom_patterns "critical").isSome = true ∧
    toyDefaultPM.custom_patterns = [] :=
  ⟨by decide,
    (c10_reload_discards_custom toyCompile
        (PatternManager.add_custom_pattern toyCompile ⟨[], []⟩ "critical"
          "OOM" 0).2 none).2.1
      toyDefaultPM (by decide)⟩

end Circus
